import Mathlib

/-!
Verification of the huggingface-openai-proxy core against its specification.

The development shallowly embeds the Python source (src/converter.py,
src/models.py, src/api_server.py).  Text is modelled as `List Char`; Python
`str` helpers (`strip`, `split()`, substring search via `in`/`find`) are
reimplemented below with ASCII whitespace semantics.  Effectful framing
fields that are constant across one stream (response id, created timestamp,
the literal `data: `/newline SSE framing) are omitted from the event model;
the logical chunk sequence is what the claims are about.
-/

namespace HFProxy

abbrev Text := List Char

/-- Coerces a Lean string literal to the `List Char` text model. -/
def txt (s : String) : Text := s.data

/-- ASCII whitespace, matching Python `str.strip`/`str.split()` for the
ASCII range (unicode whitespace is not needed by any claim). -/
def isPySpace (c : Char) : Bool :=
  c == ' ' || c == '\t' || c == '\n' || c == '\r' || c == '\x0b' || c == '\x0c'

/-- Python `str.strip()`: remove leading and trailing whitespace. -/
def strip (l : Text) : Text :=
  ((l.dropWhile isPySpace).reverse.dropWhile isPySpace).reverse

/-- Number of maximal non-whitespace runs, i.e. `len(text.split())`. -/
def countWords (l : Text) : Nat :=
  (l.foldl
    (fun (p : Nat × Bool) (c : Char) =>
      if isPySpace c then (p.1, false)
      else (if p.2 then p.1 else p.1 + 1, true))
    ((0 : Nat), false)).1

/-- Boolean prefix test on char lists (Python `startswith`). -/
def isPrefList : Text → Text → Bool
  | [], _ => true
  | _ :: _, [] => false
  | a :: p, b :: l => a == b && isPrefList p l

/-- Index of the first occurrence of `pat`, i.e. Python `l.find(pat)`
(`none` when absent). -/
def findSub (pat : Text) : Text → Option Nat
  | [] => if isPrefList pat [] then some 0 else none
  | b :: l => if isPrefList pat (b :: l) then some 0 else (findSub pat l).map (· + 1)

/-- Python `pat in l`. -/
def containsSub (pat l : Text) : Bool := (findSub pat l).isSome

/-- Python `str.lower()` (ASCII). -/
def lowerT (l : Text) : Text := l.map Char.toLower

/-- The fixed closing marker `</think>` ending a reasoning segment. -/
def marker : Text := txt "</think>"

/-! ## Data model (src/models.py) -/

/-- One entry of a multimodal content list (`TextContent` / `ImageContent`). -/
inductive ContentPart
  | textPart (t : Text)
  | imagePart (url : Text) (detail : Option Text)
deriving DecidableEq

/-- The `content` field of `Message`: `Union[str, List[ContentType]]`. -/
inductive MsgContent
  | str (t : Text)
  | parts (ps : List ContentPart)
deriving DecidableEq

/-- Chat message (`Message` in models.py).  `role` is the string value of
the `Role` enum. -/
structure Message where
  role : Text
  content : MsgContent
  name : Option Text := none
  reasoning : Option Text := none
deriving DecidableEq

/-- Chat completion request (`ChatCompletionRequest`).  The float-valued
sampling knobs (temperature, top_p, penalties) are pass-through data touched
by no claim and are omitted from the embedding. -/
structure ChatCompletionRequest where
  model : Text
  messages : List Message
  stream : Bool := false
  stop : Option (List Text) := none
  max_tokens : Option Nat := none
deriving DecidableEq

/-- Usage statistics block (`Usage`). -/
structure Usage where
  prompt_tokens : Nat
  completion_tokens : Nat
  total_tokens : Nat
deriving DecidableEq

/-- Non-streaming choice (`Choice`). -/
structure Choice where
  index : Nat
  message : Message
  finish_reason : Option Text := none
deriving DecidableEq

/-- Non-streaming response (`ChatCompletionResponse`); the effectful
`id`/`created` fields and constant `object` tag are omitted. -/
structure ChatCompletionResponse where
  model : Text
  choices : List Choice
  usage : Usage
deriving DecidableEq

/-! ## Upstream shapes (the OpenAI-client reply objects read by converter.py) -/

/-- One unit of the upstream delta stream, as read by the streaming loop:
`chunk.choices[0].delta.content` and `chunk.choices[0].finish_reason`.
A chunk whose `choices` list is empty behaves exactly like one with
`content = none` and `finish_reason = none` (both guards test
`chunk.choices and ...`), so it is represented by that value. -/
structure UpstreamDelta where
  content : Option Text := none
  finish_reason : Option Text := none
deriving DecidableEq

/-- Upstream non-streaming reply message. -/
structure HfMessage where
  role : Text
  content : Option Text
deriving DecidableEq

/-- Upstream non-streaming reply choice. -/
structure HfChoice where
  index : Nat
  message : HfMessage
  finish_reason : Option Text
deriving DecidableEq

/-- Upstream non-streaming reply. -/
structure HfResponse where
  choices : List HfChoice
deriving DecidableEq

/-- Python runtime errors the embedded fallible code can raise. -/
inductive PyErr
  | attributeError
  | indexError
deriving DecidableEq

/-! ## converter.py: pure helpers -/

/-- HuggingFaceConverter.estimate_tokens on an actual string:
`len(text.split()) + len(text) // 4`. -/
def estimate_tokens (t : Text) : Nat := countWords t + t.length / 4

/-- HuggingFaceConverter.estimate_tokens applied to a `Message.content`
value.  A plain string is counted; a multimodal content list makes
`text.split()` raise `AttributeError` (a Python list has no `split`). -/
def estimateMsgTokens : MsgContent → Except PyErr Nat
  | .str t => .ok (estimate_tokens t)
  | .parts _ => .error .attributeError

/-- The generator-sum `sum(estimate_tokens(msg.content) for msg in
request.messages)`: left-to-right, first raise propagates. -/
def sumEstimates : List Message → Except PyErr Nat
  | [] => .ok 0
  | m :: ms =>
    match estimateMsgTokens m.content with
    | .error e => .error e
    | .ok a =>
      match sumEstimates ms with
      | .error e => .error e
      | .ok b => .ok (a + b)

/-- HuggingFaceConverter.parse_thinking_content: split at the first
`</think>` into a stripped reasoning prefix and stripped final suffix;
`None` input yields two empty strings; marker-free input is returned
unchanged as the final answer. -/
def parse_thinking_content : Option Text → Text × Text
  | none => ([], [])
  | some content =>
    match findSub marker content with
    | some i => (strip (content.take i), strip (content.drop (i + 8)))
    | none => ([], content)

/-- The reasoning-capable heuristic of the streaming loop (line 164):
`'deepseek' in request.model.lower() or 'think' in request.model.lower()`. -/
def is_thinking_model (model : Text) : Bool :=
  containsSub (txt "deepseek") (lowerT model) || containsSub (txt "think") (lowerT model)

/-- HuggingFaceConverter._convert_hf_response_to_openai.  Mirrors the
source order: `choices[0]` is read first (IndexError on an empty list),
then thinking is parsed, then prompt tokens are summed (AttributeError on a
multimodal message), and the usage block is built with
`total_tokens = prompt_tokens + completion_tokens`. -/
def convert_hf_response_to_openai (hf : HfResponse) (model : Text)
    (req : ChatCompletionRequest) : Except PyErr ChatCompletionResponse :=
  match hf.choices with
  | [] => .error .indexError
  | choice :: _ =>
    let raw := choice.message.content.getD []
    let tf := parse_thinking_content (some raw)
    match sumEstimates req.messages with
    | .error e => .error e
    | .ok prompt_tokens =>
      let completion_tokens := estimate_tokens raw
      .ok
        { model := model
          choices := [
            { index := choice.index
              message :=
                { role := choice.message.role
                  content := MsgContent.str tf.2
                  reasoning := if (tf.1).isEmpty then none else some tf.1 }
              finish_reason := choice.finish_reason }]
          usage :=
            { prompt_tokens := prompt_tokens
              completion_tokens := completion_tokens
              total_tokens := prompt_tokens + completion_tokens } }

/-! ## converter.py: the streaming reassembler (create_chat_completion_stream)

The generator is embedded as a fold over the list of upstream deltas.  An
emitted SSE frame becomes one `Event`; the constant per-stream framing
fields (id, created, model, the `data: `/blank-line wrapping) are elided.
The upstream iterator is modelled as the list of deltas it yields
successfully, together with an optional exception raised when the next
delta is requested (`runStream`'s `exc` argument); an exception before any
delta, e.g. a failing client construction, is the `([], some msg)` case. -/

/-- One client-visible emission of the streaming generator. -/
inductive Event
  /-- A `ChatCompletionStreamResponse` whose delta carries `content` and/or
  `reasoning` and `finish_reason = None`. -/
  | chunkEv (content : Option Text) (reasoning : Option Text)
  /-- The final chunk: empty delta fields, carrying the finish_reason. -/
  | finishEv (reason : Text)
  /-- The terminal sentinel frame `data: [DONE]`. -/
  | doneEv
  /-- The error frame `data: {"error": {"message", "type", "code"}}`. -/
  | errorEv (message : Text) (etype : Text) (ecode : Text)
deriving DecidableEq

/-- The mutable locals of create_chat_completion_stream (lines 150-154). -/
structure StreamState where
  accumulated_content : Text := []
  in_thinking : Bool := false
  thinking_buffer : Text := []
  thinking_sent : Bool := false
deriving DecidableEq

/-- The content-handling block of the loop body (lines 158-240).  Returns
the emitted events, the updated state, and whether the body executed
`continue` (which skips the finish_reason check of lines 242-261). -/
def contentStep (isThink : Bool) (s : StreamState) :
    Option Text → List Event × StreamState × Bool
  | none => ([], s, false)
  | some c =>
    let s1 : StreamState := { s with accumulated_content := s.accumulated_content ++ c }
    if isThink then
      match findSub marker c with
      | some i =>
        let buf := s1.thinking_buffer ++ c.take i
        let ev1 : List Event :=
          if (strip buf).isEmpty || s1.thinking_sent then []
          else [Event.chunkEv none (some (strip buf))]
        let sent' : Bool :=
          if (strip buf).isEmpty || s1.thinking_sent then s1.thinking_sent else true
        let after := c.drop (i + 8)
        let ev2 : List Event :=
          if (strip after).isEmpty then [] else [Event.chunkEv (some after) none]
        (ev1 ++ ev2,
          { s1 with in_thinking := false, thinking_buffer := [], thinking_sent := sent' },
          true)
      | none =>
        if !s1.thinking_sent && !containsSub marker s1.accumulated_content then
          ([], { s1 with in_thinking := true, thinking_buffer := s1.thinking_buffer ++ c },
            true)
        else if s1.in_thinking then
          ([], { s1 with thinking_buffer := s1.thinking_buffer ++ c }, true)
        else
          (if (strip c).isEmpty then [] else [Event.chunkEv (some c) none], s1, false)
    else
      (if (strip c).isEmpty then [] else [Event.chunkEv (some c) none], s1, false)

/-- One full loop iteration: the content block, then (unless `continue`
fired) the finish_reason check, which emits the final chunk plus the
sentinel and returns from the generator (`true` in the last component). -/
def handleDelta (isThink : Bool) (s : StreamState) (d : UpstreamDelta) :
    List Event × StreamState × Bool :=
  match contentStep isThink s d.content with
  | (ev, s', true) => (ev, s', false)
  | (ev, s', false) =>
    match d.finish_reason with
    | some fr => (ev ++ [Event.finishEv fr, Event.doneEv], s', true)
    | none => (ev, s', false)

/-- The `for chunk in stream` loop; the Bool records whether the generator
returned early via the finish_reason path. -/
def loop (isThink : Bool) : StreamState → List UpstreamDelta → List Event × Bool
  | _, [] => ([], false)
  | s, d :: ds =>
    match handleDelta isThink s d with
    | (ev, _, true) => (ev, true)
    | (ev, s', false) =>
      let rest := loop isThink s' ds
      (ev ++ rest.1, rest.2)

/-- The whole generator body: run the loop from the initial state; if it did
not return early, either the pending exception is caught and one error
frame is emitted (lines 268-278), or the exhaustion fallback emits the
sentinel (lines 263-266). -/
def runStream (model : Text) (ds : List UpstreamDelta) (exc : Option Text) : List Event :=
  let isThink := is_thinking_model model
  let r := loop isThink
    { accumulated_content := [], in_thinking := false,
      thinking_buffer := [], thinking_sent := false } ds
  if r.2 then r.1
  else
    match exc with
    | some m => r.1 ++ [Event.errorEv m (txt "internal_error") (txt "internal_error")]
    | none => r.1 ++ [Event.doneEv]

/-! ## api_server.py: credential extraction, and converter.py: get_client -/

/-- The literal header scheme prefix. -/
def bearer : Text := txt "Bearer "

/-- api_server.create_chat_completion lines 113-117: the client key is the
header with the `Bearer ` prefix removed, provided the header is present,
truthy, and has that prefix. -/
def extract_client_key (auth_header : Option Text) : Option Text :=
  match auth_header with
  | none => none
  | some h => if !h.isEmpty && isPrefList bearer h then some (h.drop 7) else none

/-- Python truthiness of an optional string. -/
def pyTruthy : Option Text → Bool
  | none => false
  | some t => !t.isEmpty

/-- HuggingFaceConverter.get_client lines 35-44: the if/elif/else chain
choosing the effective upstream credential. -/
def effective_api_key (api_key : Option Text) (hf_token : Text) : Text :=
  if pyTruthy api_key then api_key.getD []
  else if !hf_token.isEmpty then hf_token
  else txt "client-api-key-required"

/-- End-to-end credential resolution: header extraction composed with the
get_client chain. -/
def resolveCredential (auth_header : Option Text) (hf_token : Text) : Text :=
  effective_api_key (extract_client_key auth_header) hf_token

/-- Modelled from the spec's words for the refinement claim about
credential resolution: the token of an `Authorization: Bearer <token>`
header when such a header is present (reading `<token>` as non-empty),
else the configured non-empty server default, else the placeholder. -/
def specResolveCredential (auth_header : Option Text) (hf_token : Text) : Text :=
  match auth_header with
  | some h =>
    if isPrefList bearer h && decide (7 < h.length) then h.drop 7
    else if !hf_token.isEmpty then hf_token
    else txt "client-api-key-required"
  | none =>
    if !hf_token.isEmpty then hf_token
    else txt "client-api-key-required"

/-! ## Auxiliary definitions used by the claim statements -/

/-- Recognizer for ordinary delta chunks (neither finish, sentinel, nor
error frame). -/
def isChunk : Event → Bool
  | .chunkEv _ _ => true
  | _ => false

/-- The chunk a single upstream delta yields in pass-through mode: one
content chunk with the delta's content unmodified, provided the content is
present and not whitespace-only. -/
def passEmit (d : UpstreamDelta) : Option Event :=
  match d.content with
  | some c => if (strip c).isEmpty then none else some (Event.chunkEv (some c) none)
  | none => none

/-- C7 witness request. -/
def c7req : ChatCompletionRequest :=
  { model := txt "m", messages := [{ role := txt "user", content := .str (txt "hi there") }] }

/-- C7 witness upstream reply. -/
def c7hf : HfResponse :=
  { choices := [{ index := 0,
                  message := { role := txt "assistant", content := some (txt "ok") },
                  finish_reason := some (txt "stop") }] }

/-- C7 witness converted response (the value the conversion returns). -/
def c7resp : ChatCompletionResponse :=
  { model := txt "m"
    choices := [{ index := 0
                  message := { role := txt "assistant", content := .str (txt "ok"),
                               reasoning := none }
                  finish_reason := some (txt "stop") }]
    usage := { prompt_tokens := 4, completion_tokens := 1, total_tokens := 5 } }

/-- Multimodal recognizer: true when a message content is a content-part
list rather than a plain string. -/
def isPartsContent : MsgContent → Bool
  | .parts _ => true
  | .str _ => false

/-- Success recognizer for the fallible conversion. -/
def exceptIsOk : Except PyErr ChatCompletionResponse → Bool
  | .ok _ => true
  | .error _ => false

/-! ## Stream-shape lemmas -/


lemma contentStep_events (isThink : Bool) (s : StreamState) (c : Option Text) :
    ∀ e ∈ (contentStep isThink s c).1, isChunk e = true := by
  rcases c with _ | t
  · intro e he
    simp [contentStep] at he
  · intro e he
    simp only [contentStep] at he
    split at he
    · split at he
      · rcases List.mem_append.1 he with h | h
        · split at h <;> simp_all [isChunk]
        · split at h <;> simp_all [isChunk]
      · split at he
        · simp at he
        · split at he
          · simp at he
          · split at he <;> simp_all [isChunk]
    · split at he <;> simp_all [isChunk]

lemma handleDelta_shape (isThink : Bool) (s : StreamState) (d : UpstreamDelta) :
    ((handleDelta isThink s d).2.2 = true →
      ∃ pre fr, (∀ e ∈ pre, isChunk e = true) ∧
        (handleDelta isThink s d).1 = pre ++ [Event.finishEv fr, Event.doneEv]) ∧
    ((handleDelta isThink s d).2.2 = false →
      ∀ e ∈ (handleDelta isThink s d).1, isChunk e = true) := by
  have hev := contentStep_events isThink s d.content
  unfold handleDelta
  rcases hcs : contentStep isThink s d.content with ⟨ev, s', skip⟩
  rw [hcs] at hev
  rcases skip with _ | _
  · rcases hfr : d.finish_reason with _ | fr
    · exact ⟨by simp, fun _ => hev⟩
    · exact ⟨fun _ => ⟨ev, fr, hev, rfl⟩, by simp⟩
  · exact ⟨by simp, fun _ => hev⟩

lemma loop_shape (isThink : Bool) :
    ∀ (ds : List UpstreamDelta) (s : StreamState),
    ((loop isThink s ds).2 = true →
      ∃ pre fr, (∀ e ∈ pre, isChunk e = true) ∧
        (loop isThink s ds).1 = pre ++ [Event.finishEv fr, Event.doneEv]) ∧
    ((loop isThink s ds).2 = false →
      ∀ e ∈ (loop isThink s ds).1, isChunk e = true) := by
  intro ds
  induction ds with
  | nil => exact fun s => ⟨by simp [loop], by simp [loop]⟩
  | cons d ds ih =>
    intro s
    have hd := handleDelta_shape isThink s d
    unfold loop
    rcases hh : handleDelta isThink s d with ⟨ev, s', stop⟩
    rw [hh] at hd
    rcases stop with _ | _
    · simp only
      have hchunks := hd.2 rfl
      have hrest := ih s'
      constructor
      · intro h2
        rcases hrest.1 h2 with ⟨pre, fr, hpre, heq⟩
        refine ⟨ev ++ pre, fr, ?_, by rw [heq, List.append_assoc]⟩
        intro e he
        rcases List.mem_append.1 he with h | h
        · exact hchunks e h
        · exact hpre e h
      · intro h2 e he
        rcases List.mem_append.1 he with h | h
        · exact hchunks e h
        · exact hrest.2 h2 e h
    · exact ⟨fun _ => hd.1 rfl, by simp⟩

/-- C1 (amended): for every exception-free streaming run, the terminal
sentinel is emitted exactly once and is the last emission; everything
before it is an ordinary delta chunk except possibly one empty-delta
finish_reason chunk immediately preceding it (emitted when a
finish_reason-bearing delta reaches the termination check), so the
finish-path and exhaustion-fallback emissions are mutually exclusive.
Unlike the original claim's case (a), a finish_reason arriving on a delta
whose content is diverted into the reasoning-buffering or marker-split
path (which `continue`s past the termination check) is ignored: no finish
chunk is emitted for it and further deltas are still consumed. -/
theorem stream_done_exactly_once (model : Text) (ds : List UpstreamDelta) :
    ∃ pre, (∀ e ∈ pre, isChunk e = true) ∧
      (runStream model ds none = pre ++ [Event.doneEv] ∨
       ∃ fr, runStream model ds none = pre ++ [Event.finishEv fr, Event.doneEv]) := by
  have hs := loop_shape (is_thinking_model model) ds
    { accumulated_content := [], in_thinking := false,
      thinking_buffer := [], thinking_sent := false }
  simp only [runStream]
  rcases hl : loop (is_thinking_model model)
      { accumulated_content := [], in_thinking := false,
        thinking_buffer := [], thinking_sent := false } ds with ⟨ev, ret⟩
  rw [hl] at hs
  rcases ret with _ | _
  · exact ⟨ev, hs.2 rfl, Or.inl (by simp)⟩
  · rcases hs.1 rfl with ⟨pre, fr, hpre, heq⟩
    exact ⟨pre, hpre, Or.inr ⟨fr, by simpa using heq⟩⟩

/-- C1 counterexample: on a reasoning-capable model, a delta that carries
both content and a finish_reason while the machine is buffering reasoning
takes the `continue` path, so its finish_reason is ignored: no empty-delta
finish chunk is emitted, later deltas keep being consumed (the second delta
below still produces two chunks), and only the exhaustion fallback emits
the sentinel — contradicting the claim's case (a). -/
theorem stream_finish_skipped_counterexample :
    runStream (txt "deepseek")
      [⟨some (txt "x"), some (txt "stop")⟩, ⟨some (txt "a</think>b"), none⟩] none =
      [Event.chunkEv none (some (txt "xa")), Event.chunkEv (some (txt "b")) none,
       Event.doneEv] := by rfl

/-- C9: if the upstream raises an exception (modelled as pending after the
listed deltas are consumed), then either the generator already returned
through the finish_reason path (so the exception is never raised and the
stream ends with the finish chunk plus sentinel), or exactly one error
frame carrying message/type/code is emitted, it is the last emission, and
no sentinel or further chunk follows it. -/
theorem stream_error_frame_last (model : Text) (ds : List UpstreamDelta) (m : Text) :
    ∃ pre, (∀ e ∈ pre, isChunk e = true) ∧
      (runStream model ds (some m) =
        pre ++ [Event.errorEv m (txt "internal_error") (txt "internal_error")] ∨
       ∃ fr, runStream model ds (some m) = pre ++ [Event.finishEv fr, Event.doneEv]) := by
  have hs := loop_shape (is_thinking_model model) ds
    { accumulated_content := [], in_thinking := false,
      thinking_buffer := [], thinking_sent := false }
  simp only [runStream]
  rcases hl : loop (is_thinking_model model)
      { accumulated_content := [], in_thinking := false,
        thinking_buffer := [], thinking_sent := false } ds with ⟨ev, ret⟩
  rw [hl] at hs
  rcases ret with _ | _
  · exact ⟨ev, hs.2 rfl, Or.inl (by simp)⟩
  · rcases hs.1 rfl with ⟨pre, fr, hpre, heq⟩
    exact ⟨pre, hpre, Or.inr ⟨fr, by simpa using heq⟩⟩

/-! ## Pass-through mode (non-reasoning models) -/


lemma contentStep_false (s : StreamState) (c : Option Text) :
    contentStep false s c =
      ((match c with
        | some t => if (strip t).isEmpty then [] else [Event.chunkEv (some t) none]
        | none => []),
       (match c with
        | some t => { s with accumulated_content := s.accumulated_content ++ t }
        | none => s),
       false) := by
  cases c <;> rfl

lemma loop_pass (ds : List UpstreamDelta) :
    ∀ s : StreamState, (∀ d ∈ ds, d.finish_reason = none) →
      loop false s ds = (ds.filterMap passEmit, false) := by
  induction ds with
  | nil => intro s _; rfl
  | cons d ds ih =>
    intro s h
    have hfr : d.finish_reason = none := (h d (List.mem_cons_self d ds))
    have htl : ∀ d' ∈ ds, d'.finish_reason = none :=
      fun d' hd' => h d' (List.mem_cons_of_mem d hd')
    unfold loop handleDelta
    rw [contentStep_false, hfr]
    rcases hc : d.content with _ | t
    · simp only
      rw [ih s htl]
      simp [passEmit, hc]
    · simp only
      rw [ih { s with accumulated_content := s.accumulated_content ++ t } htl]
      by_cases hb : (strip t).isEmpty
      · simp [passEmit, hc, hb]
      · simp [passEmit, hc, hb]

/-- C4 (amended): for a non-reasoning (pass-through) model, each upstream
delta whose content contains at least one non-whitespace character yields
exactly one emitted chunk whose content equals the delta's content
unmodified and with no buffering delay; deltas with absent, empty, or
whitespace-only content yield no chunk (the guard is `content.strip()`, so
a non-empty but all-whitespace delta is also dropped, unlike the original
claim); consequently the emitted chunk contents are exactly the non-blank
upstream delta contents, in order, followed by the sentinel. -/
theorem passthrough_stream (model : Text) (ds : List UpstreamDelta)
    (h1 : is_thinking_model model = false)
    (h2 : ∀ d ∈ ds, d.finish_reason = none) :
    runStream model ds none = ds.filterMap passEmit ++ [Event.doneEv] := by
  simp only [runStream, h1]
  rw [loop_pass ds _ h2]
  simp

/-- C4 witness: a three-delta pass-through stream in which the middle
whitespace-only delta is dropped. -/
theorem passthrough_stream_witness :
    runStream (txt "gpt")
      [⟨some (txt "a"), none⟩, ⟨some (txt " "), none⟩, ⟨some (txt "b"), none⟩] none =
      [Event.chunkEv (some (txt "a")) none, Event.chunkEv (some (txt "b")) none,
       Event.doneEv] := by
  have h := passthrough_stream (txt "gpt")
    [⟨some (txt "a"), none⟩, ⟨some (txt " "), none⟩, ⟨some (txt "b"), none⟩]
    (by decide) (by decide)
  exact h.trans (by decide)

/-- C4 counterexample: for the pass-through model `gpt`, the delta whose
content is the non-empty string of one space yields no chunk at all, so the
concatenation of emitted contents omits it — contradicting the claim that
every delta with non-empty content yields exactly one chunk with that
content. -/
theorem passthrough_counterexample :
    runStream (txt "gpt") [⟨some (txt " "), none⟩] none = [Event.doneEv] := by rfl

/-! ## The final state of a reasoning-capable stream -/

lemma isPrefList_append (p : Text) :
    ∀ (l r : Text), isPrefList p l = true → isPrefList p (l ++ r) = true := by
  induction p with
  | nil => intro l r _; rfl
  | cons a p ih =>
    intro l r h
    cases l with
    | nil => simp [isPrefList] at h
    | cons b l =>
      simp only [isPrefList, Bool.and_eq_true] at h ⊢
      exact ⟨h.1, ih l r h.2⟩

lemma containsSub_append_left (p : Text) :
    ∀ (a b : Text), containsSub p a = true → containsSub p (a ++ b) = true := by
  intro a
  induction a with
  | nil =>
    intro b h
    have hp : isPrefList p [] = true := by
      cases hp' : isPrefList p []
      · simp only [containsSub, findSub, hp'] at h
        simp at h
      · rfl
    have hp2 : isPrefList p b = true := by
      have := isPrefList_append p [] b hp
      rwa [List.nil_append] at this
    cases b with
    | nil => exact h
    | cons c l => simp [containsSub, findSub, hp2]
  | cons c a ih =>
    intro b h
    rw [List.cons_append]
    by_cases hq : isPrefList p (c :: (a ++ b)) = true
    · simp [containsSub, findSub, hq]
    · have hp : isPrefList p (c :: a) = false := by
        cases hp' : isPrefList p (c :: a)
        · rfl
        · exfalso
          have h2 := isPrefList_append p (c :: a) b hp'
          rw [List.cons_append] at h2
          exact hq h2
      have ha : containsSub p a = true := by
        simp only [containsSub, findSub, hp] at h
        simpa [containsSub] using h
      have hab := ih b ha
      simp only [containsSub, findSub]
      rw [if_neg hq]
      simpa [containsSub] using hab

lemma loop_final (ds : List UpstreamDelta) :
    ∀ s : StreamState, s.in_thinking = false →
      containsSub marker s.accumulated_content = true →
      (∀ d ∈ ds, d.finish_reason = none ∧
        ∀ c, d.content = some c → containsSub marker c = false) →
      loop true s ds = (ds.filterMap passEmit, false) := by
  induction ds with
  | nil => intro s _ _ _; rfl
  | cons d ds ih =>
    intro s h1 h2 h3
    have hd := h3 d (List.mem_cons_self d ds)
    have htl : ∀ d' ∈ ds, d'.finish_reason = none ∧
        ∀ c, d'.content = some c → containsSub marker c = false :=
      fun d' hd' => h3 d' (List.mem_cons_of_mem d hd')
    rcases hc : d.content with _ | t
    · have hstep : contentStep true s d.content = ([], s, false) := by rw [hc]; rfl
      unfold loop handleDelta
      rw [hstep, hd.1]
      simp only
      rw [ih s h1 h2 htl]
      simp [passEmit, hc]
    · have hmt : containsSub marker t = false := hd.2 t hc
      have hfind : findSub marker t = none := by
        rcases hf : findSub marker t with _ | i
        · rfl
        · exfalso
          rw [containsSub, hf] at hmt
          simp at hmt
      have hacc : containsSub marker (s.accumulated_content ++ t) = true :=
        containsSub_append_left marker s.accumulated_content t h2
      have hstep : contentStep true s d.content =
          ((if (strip t).isEmpty then [] else [Event.chunkEv (some t) none]),
           { s with accumulated_content := s.accumulated_content ++ t }, false) := by
        rw [hc]
        simp only [contentStep, hfind]
        rw [hacc, h1]
        simp
      unfold loop handleDelta
      rw [hstep, hd.1]
      simp only
      rw [ih { s with accumulated_content := s.accumulated_content ++ t } h1 hacc htl]
      by_cases hb : (strip t).isEmpty
      · simp [passEmit, hc, hb]
      · simp [passEmit, hc, hb]

/-- C5 (amended): in a reasoning-capable stream, once the machine is in the
final state (`in_thinking` is off and the accumulated text contains the
marker), every subsequent delta whose content does not itself contain the
full marker is emitted immediately and untouched as a final-content chunk
when it is not whitespace-only, with no further buffering.  Unlike the
original claim, a whitespace-only delta is dropped, and a later delta that
does contain the full `</think>` marker is split again: its pre-marker text
is diverted into the (reset) thinking buffer and dropped — reasoning being
emitted at most once per stream — and only its post-marker text is emitted
(see the counterexample). -/
theorem final_state_passthrough (s : StreamState) (ds : List UpstreamDelta)
    (h1 : s.in_thinking = false)
    (h2 : containsSub marker s.accumulated_content = true)
    (h3 : ∀ d ∈ ds, d.finish_reason = none ∧
      ∀ c, d.content = some c → containsSub marker c = false) :
    loop true s ds = (ds.filterMap passEmit, false) :=
  loop_final ds s h1 h2 h3

/-- C5 witness: from a concrete final state, one marker-free delta is
passed through unchanged. -/
theorem final_state_passthrough_witness :
    loop true
      { accumulated_content := txt "x</think>", in_thinking := false,
        thinking_buffer := [], thinking_sent := true }
      [⟨some (txt "hi"), none⟩] =
      ([Event.chunkEv (some (txt "hi")) none], false) := by
  have h := final_state_passthrough
    { accumulated_content := txt "x</think>", in_thinking := false,
      thinking_buffer := [], thinking_sent := true }
    [⟨some (txt "hi"), none⟩] (by decide) (by decide) (by decide)
  exact h.trans (by decide)

/-- C5 counterexample: with reasoning `a` already emitted and the machine
in the final state, the later delta `c</think>d` is not left untouched:
the code re-splits it at the marker, silently drops the pre-marker text
`c` into the reset thinking buffer, and emits only `d` — contradicting the
claim that text resembling the marker in the final segment is untouched
and that every subsequent non-empty delta is emitted as-is. -/
theorem final_state_resplit_counterexample :
    runStream (txt "deepseek")
      [⟨some (txt "a</think>b"), none⟩, ⟨some (txt "c</think>d"), none⟩] none =
      [Event.chunkEv none (some (txt "a")), Event.chunkEv (some (txt "b")) none,
       Event.chunkEv (some (txt "d")) none, Event.doneEv] := by rfl

/-! ## The thinking-segment splitter (parse_thinking_content) -/

lemma marker_length : marker.length = 8 := rfl

lemma isPrefList_self_append (p r : Text) : isPrefList p (p ++ r) = true := by
  induction p with
  | nil => rfl
  | cons a p ih => simp [isPrefList, ih]

lemma findSub_of_pref (pat l : Text) (h : isPrefList pat l = true) :
    findSub pat l = some 0 := by
  cases l <;> simp [findSub, h]

lemma isPrefList_of_append_le (p : Text) :
    ∀ (l r : Text), isPrefList p (l ++ r) = true → p.length ≤ l.length →
      isPrefList p l = true := by
  induction p with
  | nil => intro l r _ _; rfl
  | cons a p ih =>
    intro l r h hle
    cases l with
    | nil => simp at hle
    | cons b l =>
      simp only [List.cons_append, isPrefList, Bool.and_eq_true] at h ⊢
      refine ⟨h.1, ih l r h.2 ?_⟩
      simp only [List.length_cons] at hle
      omega

lemma isPrefList_get (p : Text) :
    ∀ (l : Text), isPrefList p l = true → ∀ k, k < p.length → l.get? k = p.get? k := by
  induction p with
  | nil => intro l _ k hk; simp at hk
  | cons a p ih =>
    intro l h k hk
    cases l with
    | nil => simp [isPrefList] at h
    | cons b l =>
      simp only [isPrefList, Bool.and_eq_true, beq_iff_eq] at h
      cases k with
      | zero => simp [List.get?, h.1]
      | succ k =>
        simp only [List.get?]
        refine ih l h.2 k ?_
        simp only [List.length_cons] at hk
        omega

lemma get_append_len (A x : Text) : (A ++ x).get? A.length = x.get? 0 := by
  induction A with
  | nil => rfl
  | cons a A ih => simpa using ih

/-- The characters of `</think>` at positions 1..7 are not `<`: the marker
cannot overlap a shifted copy of itself. -/
lemma marker_pos_ne (n : Nat) (h1 : 1 ≤ n) (h2 : n < 8) : marker.get? n ≠ some '<' := by
  interval_cases n <;> decide

lemma not_pref_marker (a : Char) (A B : Text)
    (hc : containsSub marker (a :: A) = false) :
    isPrefList marker ((a :: A) ++ (marker ++ B)) = false := by
  cases hp : isPrefList marker ((a :: A) ++ (marker ++ B))
  · rfl
  · exfalso
    by_cases hlen : 8 ≤ (a :: A).length
    · have hpl : isPrefList marker (a :: A) = true :=
        isPrefList_of_append_le marker (a :: A) (marker ++ B) hp
          (by rw [marker_length]; exact hlen)
      have : containsSub marker (a :: A) = true := by
        simp [containsSub, findSub_of_pref marker _ hpl]
      rw [this] at hc
      simp at hc
    · push_neg at hlen
      have hk := isPrefList_get marker _ hp (a :: A).length
        (by rw [marker_length]; exact hlen)
      rw [get_append_len] at hk
      have h0 : (marker ++ B).get? 0 = some '<' := rfl
      rw [h0] at hk
      exact marker_pos_ne (a :: A).length (by simp) hlen hk.symm

lemma containsSub_cons_false (p : Text) (a : Char) (l : Text)
    (h : containsSub p (a :: l) = false) :
    isPrefList p (a :: l) = false ∧ containsSub p l = false := by
  simp only [containsSub, findSub] at h
  cases hp : isPrefList p (a :: l)
  · rw [hp] at h
    simp only [Bool.false_eq_true, if_false] at h
    refine ⟨rfl, ?_⟩
    simpa [containsSub] using h
  · rw [hp] at h
    simp at h

/-- The first occurrence of the marker in `A ++ marker ++ B` with `A`
marker-free is exactly at index `A.length`. -/
lemma findSub_marker_append (A B : Text) (hc : containsSub marker A = false) :
    findSub marker (A ++ (marker ++ B)) = some A.length := by
  induction A with
  | nil =>
    simp only [List.nil_append, List.length_nil]
    exact findSub_of_pref marker (marker ++ B) (isPrefList_self_append marker B)
  | cons a A ih =>
    have hparts := containsSub_cons_false marker a A hc
    have hnp := not_pref_marker a A B hc
    rw [List.cons_append] at hnp
    rw [List.cons_append]
    simp only [findSub]
    rw [if_neg (by simp [hnp])]
    rw [ih hparts.2]
    simp

lemma take_len_append (A x : Text) : (A ++ x).take A.length = A := by
  induction A with
  | nil => rfl
  | cons a A ih => simp [ih]

lemma drop_len_add_append (A x : Text) (n : Nat) :
    (A ++ x).drop (A.length + n) = x.drop n := by
  induction A with
  | nil => simp
  | cons a A ih =>
    simp only [List.cons_append, List.length_cons]
    rw [show A.length + 1 + n = (A.length + n) + 1 from by omega]
    exact ih

/-- C6: the thinking-segment splitter satisfies its contract: `None` yields
two empty strings without raising; a text without the marker comes back
unchanged as the final answer with empty reasoning; and for
`T = A ++ "</think>" ++ B` with `A` marker-free, the split is
`(strip A, strip B)` — the first marker occurrence governs the split and
`B` (which may itself contain markers) is not split further. -/
theorem parse_thinking_content_spec :
    parse_thinking_content none = ([], []) ∧
    (∀ T, containsSub marker T = false → parse_thinking_content (some T) = ([], T)) ∧
    (∀ A B, containsSub marker A = false →
      parse_thinking_content (some (A ++ marker ++ B)) = (strip A, strip B)) := by
  refine ⟨rfl, ?_, ?_⟩
  · intro T h
    have hf : findSub marker T = none := by
      cases hf' : findSub marker T
      · rfl
      · rw [containsSub, hf'] at h
        simp at h
    simp only [parse_thinking_content]
    rw [hf]
  · intro A B hc
    rw [List.append_assoc]
    have hf := findSub_marker_append A B hc
    simp only [parse_thinking_content]
    rw [hf]
    have ht : (A ++ (marker ++ B)).take A.length = A := take_len_append A (marker ++ B)
    have hd : (A ++ (marker ++ B)).drop (A.length + 8) = B := by
      rw [drop_len_add_append]
      rfl
    show (strip ((A ++ (marker ++ B)).take A.length),
          strip ((A ++ (marker ++ B)).drop (A.length + 8))) = (strip A, strip B)
    rw [ht, hd]

/-- C6 witness: a concrete split with whitespace trimming on both sides. -/
theorem parse_thinking_content_spec_witness :
    parse_thinking_content (some (txt "ab " ++ marker ++ txt " cd")) =
      (txt "ab", txt "cd") := by
  have h := parse_thinking_content_spec.2.2 (txt "ab ") (txt " cd") (by decide)
  exact h.trans (by decide)

/-! ## Remaining claim theorems -/

/-- C2: on the reasoning-capable model `deepseek`, the upstream deltas
`"he"`, `"llo</think>"`, `"world"` followed by a finish_reason-bearing
delta produce exactly, in this order, one chunk whose delta carries
reasoning `"hello"`, one chunk whose delta carries content `"world"`, one
empty-delta chunk carrying the finish_reason, and the terminal sentinel. -/
theorem reasoning_stream_example :
    runStream (txt "deepseek")
      [⟨some (txt "he"), none⟩, ⟨some (txt "llo</think>"), none⟩,
       ⟨some (txt "world"), none⟩, ⟨none, some (txt "stop")⟩] none =
      [Event.chunkEv none (some (txt "hello")), Event.chunkEv (some (txt "world")) none,
       Event.finishEv (txt "stop"), Event.doneEv] := by rfl

/-- C3 (code behaviour at the claim's failing input): when the closing
marker is split across two consecutive deltas (`"abc</thi"` then
`"nk>def"`), the per-delta test `'</think>' in content` never fires; the
accumulated-text test only stops classifying new content as fresh
reasoning, while `in_thinking` remains set, so both deltas are appended to
the thinking buffer, which is never flushed.  Nothing but the finish chunk
and the sentinel is emitted: the claimed reasoning chunk `"abc"` and final
chunk `"def"` never appear. -/
theorem straddled_marker_behavior :
    runStream (txt "deepseek")
      [⟨some (txt "abc</thi"), none⟩, ⟨some (txt "nk>def"), none⟩,
       ⟨none, some (txt "stop")⟩] none =
      [Event.finishEv (txt "stop"), Event.doneEv] := by rfl

/-- C7: whenever the non-streaming conversion returns a response object,
its usage block satisfies `total_tokens = prompt_tokens +
completion_tokens` exactly, over the token estimates computed from the
request messages and the raw upstream reply text. -/
theorem usage_total_eq (hf : HfResponse) (model : Text)
    (req : ChatCompletionRequest) (r : ChatCompletionResponse)
    (h : convert_hf_response_to_openai hf model req = .ok r) :
    r.usage.total_tokens = r.usage.prompt_tokens + r.usage.completion_tokens := by
  unfold convert_hf_response_to_openai at h
  rcases hcs : hf.choices with _ | ⟨choice, rest⟩
  · rw [hcs] at h
    simp at h
  · rw [hcs] at h
    simp only at h
    rcases hse : sumEstimates req.messages with e | p
    · rw [hse] at h
      simp at h
    · rw [hse] at h
      simp only [Except.ok.injEq] at h
      rw [← h]


/-- C7 witness: the conversion of a concrete reply returns a response whose
usage block is additive. -/
theorem usage_total_eq_witness :
    convert_hf_response_to_openai c7hf (txt "m") c7req = .ok c7resp ∧
    c7resp.usage.total_tokens = c7resp.usage.prompt_tokens + c7resp.usage.completion_tokens :=
  ⟨by rfl, usage_total_eq c7hf (txt "m") c7req c7resp (by rfl)⟩


lemma sumEstimates_multimodal (msgs : List Message)
    (h : msgs.any (fun m => isPartsContent m.content) = true) :
    sumEstimates msgs = .error PyErr.attributeError := by
  induction msgs with
  | nil => simp at h
  | cons m ms ih =>
    simp only [List.any_cons, Bool.or_eq_true] at h
    rcases hm : m.content with t | ps
    · rcases h with h | h
      · rw [hm] at h
        simp [isPartsContent] at h
      · simp only [sumEstimates, hm, estimateMsgTokens]
        rw [ih h]
    · simp [sumEstimates, hm, estimateMsgTokens]

/-- C10: a request containing at least one message whose content is a
content-part list (a shape the request schema accepts) makes the
token-estimation step raise `AttributeError` instead of returning a count
(`text.split()` on a Python list), so the non-streaming conversion never
returns a response object for it: every multimodal request takes the error
branch, and a successful response is possible only when every message
content is a plain string. -/
theorem multimodal_rejects (hf : HfResponse) (model : Text)
    (req : ChatCompletionRequest)
    (h : req.messages.any (fun m => isPartsContent m.content) = true) :
    sumEstimates req.messages = .error PyErr.attributeError ∧
    exceptIsOk (convert_hf_response_to_openai hf model req) = false := by
  have hs := sumEstimates_multimodal req.messages h
  refine ⟨hs, ?_⟩
  unfold convert_hf_response_to_openai
  rcases hcs : hf.choices with _ | ⟨choice, rest⟩
  · rfl
  · simp only
    rw [hs]
    rfl

/-- C10 witness: a concrete request with one image-bearing multimodal
message is rejected by the estimation step and by the whole conversion. -/
theorem multimodal_rejects_witness :
    sumEstimates [{ role := txt "user",
                    content := .parts [.imagePart (txt "http://x") none] }] =
      .error PyErr.attributeError ∧
    exceptIsOk (convert_hf_response_to_openai c7hf (txt "m")
      { model := txt "m",
        messages := [{ role := txt "user",
                       content := .parts [.imagePart (txt "http://x") none] }] }) = false :=
  multimodal_rejects c7hf (txt "m")
    { model := txt "m",
      messages := [{ role := txt "user",
                     content := .parts [.imagePart (txt "http://x") none] }] }
    (by decide)

/-- Prefix length bound for the credential proof. -/
lemma isPrefList_length (p : Text) :
    ∀ l : Text, isPrefList p l = true → p.length ≤ l.length := by
  induction p with
  | nil => intro l _; simp
  | cons a p ih =>
    intro l h
    cases l with
    | nil => simp [isPrefList] at h
    | cons b l =>
      simp only [isPrefList, Bool.and_eq_true] at h
      simp only [List.length_cons]
      exact Nat.succ_le_succ (ih l h.2)

/-- C8: the upstream credential is resolved exactly as the spec orders it:
the token of an inbound `Authorization: Bearer <token>` header when such a
header (with a non-empty token) is present, else the configured
server-side default when it is non-empty, else the fixed placeholder
`client-api-key-required`.  Stated as equality between the composition of
the code's two resolution steps (header extraction in api_server, the
if/elif/else chain in get_client) and a comparator written from the spec's
words. -/
theorem credential_resolution_spec (auth_header : Option Text) (hf_token : Text) :
    resolveCredential auth_header hf_token = specResolveCredential auth_header hf_token := by
  rcases auth_header with _ | h
  · rfl
  · simp only [resolveCredential, extract_client_key, specResolveCredential]
    by_cases hp : isPrefList bearer h = true
    · have hne : h.isEmpty = false := by
        cases h
        · simp [bearer, isPrefList, txt] at hp
        · rfl
      rw [hp, hne]
      simp only [Bool.not_false, Bool.true_and, if_true]
      have hlen : 7 ≤ h.length := by
        have := isPrefList_length bearer h hp
        simpa [bearer, txt] using this
      by_cases hd : (h.drop 7).isEmpty
      · have h7 : ¬ 7 < h.length := by
          have : (h.drop 7).length = 0 := by
            rw [List.isEmpty_iff] at hd
            rw [hd]
            rfl
          rw [List.length_drop] at this
          omega
        rw [if_neg (by simp [h7])]
        simp [effective_api_key, pyTruthy, hd]
      · have h7 : 7 < h.length := by
          have : (h.drop 7).length ≠ 0 := by
            intro h0
            rw [List.length_eq_zero] at h0
            rw [← List.isEmpty_iff] at h0
            rw [h0] at hd
            exact hd rfl
          rw [List.length_drop] at this
          omega
        rw [if_pos (by simp [hp, h7])]
        simp [effective_api_key, pyTruthy, hd]
    · rw [Bool.not_eq_true] at hp
      simp [hp, effective_api_key, pyTruthy]

end HFProxy
